import Mathlib

/-!
Verification of the five whole-string validators of `data_extraction.py`.

The script compiles five anchored regular expressions (email, URL, phone,
credit card, time of day) and classifies sample strings with
`regex.match(sample)` (truthy iff a match starting at position 0 exists).
Each pattern has the shape `^body$`, so a string is accepted iff `body`
matches the whole string, or — because Python's `$` also matches just
before a newline that ends the string — iff the string ends with `'\n'`
and `body` matches everything before that final newline.

The embedding:
* character classes are Lean functions `Char → Bool` transcribing the
  classes of the source patterns (Python's Unicode-aware `\w` is modelled
  on the ASCII range plus the Latin-1 letter block, the only characters
  this development exercises; `\d` and `\s` are modelled on their ASCII
  fragments);
* `RE` is a regular-expression syntax with classes at the leaves;
  `RE.Matches` is the standard inductive language semantics and
  `RE.rmatch` an executable Brzozowski-derivative matcher, proved
  equivalent in `RE.rmatch_iff`;
* `pyFullMatch` models the truthiness of `regex.match(s)` for a pattern
  `^body$`, including the trailing-newline behaviour of `$`.
-/

/-- ASCII decimal digit: the class `\d` of the source patterns (modelled on
its ASCII fragment `[0-9]`). -/
def pyDigit (c : Char) : Bool := '0' ≤ c && c ≤ '9'

/-- Lower-case ASCII letter, `[a-z]`. -/
def asciiLower (c : Char) : Bool := 'a' ≤ c && c ≤ 'z'

/-- Upper-case ASCII letter, `[A-Z]`. -/
def asciiUpper (c : Char) : Bool := 'A' ≤ c && c ≤ 'Z'

/-- ASCII letter, the class `[a-zA-Z]` of the email pattern. -/
def asciiAlpha (c : Char) : Bool := asciiLower c || asciiUpper c

/-- ASCII letter or digit, the class `[a-zA-Z0-9]` of the email pattern. -/
def asciiAlnum (c : Char) : Bool := asciiAlpha c || pyDigit c

/-- Whitespace, the class `\s` of the phone and time patterns (modelled on
its ASCII fragment: space, tab, newline, carriage return, vertical tab,
form feed). -/
def pySpace (c : Char) : Bool :=
  c == ' ' || c == '\t' || c == '\n' || c == '\r' ||
  c == Char.ofNat 11 || c == Char.ofNat 12

/-- Word character, the class `\w` of the URL pattern.  Python 3 compiles
`str` patterns with Unicode semantics, so `\w` matches far more than
`[a-zA-Z0-9_]`; the model covers the ASCII range plus the Latin-1 letter
block U+00C0–U+00FF (every character there is a letter except `×` and
`÷`), which is the only non-ASCII territory this development exercises. -/
def pyWord (c : Char) : Bool :=
  asciiAlnum c || c == '_' ||
  (0xC0 ≤ c.toNat && c.toNat ≤ 0xFF && !(c == '×') && !(c == '÷'))

/-- Regular-expression syntax: empty language, empty string, a character
class at the leaves, alternation, concatenation and Kleene star. -/
inductive RE : Type where
  | emp : RE
  | eps : RE
  | cls : (Char → Bool) → RE
  | alt : RE → RE → RE
  | cat : RE → RE → RE
  | star : RE → RE

/-- Standard language semantics of a regular expression, as an inductive
predicate over lists of characters. -/
inductive RE.Matches : RE → List Char → Prop where
  | eps : RE.Matches .eps []
  | cls {p : Char → Bool} {c : Char} : p c = true → RE.Matches (.cls p) [c]
  | altL {a b : RE} {s : List Char} : RE.Matches a s → RE.Matches (.alt a b) s
  | altR {a b : RE} {s : List Char} : RE.Matches b s → RE.Matches (.alt a b) s
  | cat {a b : RE} {u v : List Char} :
      RE.Matches a u → RE.Matches b v → RE.Matches (.cat a b) (u ++ v)
  | starNil {r : RE} : RE.Matches (.star r) []
  | starCat {r : RE} {u v : List Char} :
      RE.Matches r u → RE.Matches (.star r) v → RE.Matches (.star r) (u ++ v)

/-- Nullability: does the expression accept the empty string? -/
def RE.nullable : RE → Bool
  | .emp => false
  | .eps => true
  | .cls _ => false
  | .alt a b => a.nullable || b.nullable
  | .cat a b => a.nullable && b.nullable
  | .star _ => true

/-- Syntactic test for the empty-language expression, used by the smart
constructors to keep derivatives small. -/
def RE.isEmp : RE → Bool
  | .emp => true
  | _ => false

/-- Syntactic test for the empty-string expression. -/
def RE.isEps : RE → Bool
  | .eps => true
  | _ => false

/-- Smart alternation: drops `emp` branches. -/
def RE.mkAlt (a b : RE) : RE :=
  if a.isEmp then b else if b.isEmp then a else .alt a b

/-- Smart concatenation: absorbs `emp` and drops `eps` factors. -/
def RE.mkCat (a b : RE) : RE :=
  if a.isEmp || b.isEmp then .emp
  else if a.isEps then b
  else if b.isEps then a
  else .cat a b

/-- Brzozowski derivative of an expression by one character, with smart
constructors so that iterated derivatives stay small. -/
def RE.deriv : RE → Char → RE
  | .emp, _ => .emp
  | .eps, _ => .emp
  | .cls p, c => if p c then .eps else .emp
  | .alt a b, c => .mkAlt (a.deriv c) (b.deriv c)
  | .cat a b, c =>
      if a.nullable then .mkAlt (.mkCat (a.deriv c) b) (b.deriv c)
      else .mkCat (a.deriv c) b
  | .star r, c => .mkCat (r.deriv c) (.star r)

/-- Executable matcher: repeated derivatives followed by a nullability
test. -/
def RE.rmatch (r : RE) : List Char → Bool
  | [] => r.nullable
  | c :: s => (r.deriv c).rmatch s

/-- Test that character `x` is excluded by every character class of `r`;
then no string of the language of `r` can contain `x`. -/
def RE.avoids (x : Char) : RE → Bool
  | .emp => true
  | .eps => true
  | .cls p => !(p x)
  | .alt a b => RE.avoids x a && RE.avoids x b
  | .cat a b => RE.avoids x a && RE.avoids x b
  | .star r => RE.avoids x r

/-- Truthiness of `regex.match(s)` for a compiled pattern `^body$` without
`re.MULTILINE`: the match must start at position 0 (`re.match` and `^`),
and `$` matches at the end of the string or just before a newline that
ends the string.  So `s` is accepted iff the body matches all of `s`, or
`s` ends with `'\n'` and the body matches everything before it. -/
def pyFullMatch (r : RE) (s : List Char) : Bool :=
  r.rmatch s || (s.getLast? == some '\n' && r.rmatch s.dropLast)

/-- Single literal character of a pattern, as a one-character class. -/
def chr (c : Char) : RE := .cls (fun x => x == c)

/-- Literal letter of a pattern compiled with `re.IGNORECASE`: matches the
letter in either case (used for the `AM`/`PM` letters of the time
pattern). -/
def ichr (c : Char) : RE := .cls (fun x => x == c || x == c.toLower)

/-- One or more repetitions: `r+` abbreviates `r r*`. -/
def rplus (r : RE) : RE := .cat r (.star r)

/-- Zero or one occurrence: `r?` abbreviates `r | ε`. -/
def ropt (r : RE) : RE := .alt r .eps

/-- Body of the email pattern of the source,
`[a-zA-Z0-9]+(?:[._+-][a-zA-Z0-9]+)*@[a-zA-Z0-9-]+(?:\.[a-zA-Z]{2,})+`
(the `^`/`$` anchors are modelled by `pyFullMatch`).  The class `[._+-]`
is the separator set of the local part, `[a-zA-Z0-9-]` the domain-label
class, and `[a-zA-Z]{2,}` is two-or-more letters. -/
def email_regex : RE :=
  .cat (rplus (.cls asciiAlnum))
    (.cat (.star (.cat (.cls fun c => c == '.' || c == '_' || c == '+' || c == '-')
        (rplus (.cls asciiAlnum))))
      (.cat (chr '@')
        (.cat (rplus (.cls fun c => asciiAlnum c || c == '-'))
          (rplus (.cat (chr '.')
            (.cat (.cls asciiAlpha) (rplus (.cls asciiAlpha))))))))

/-- Body of the URL pattern of the source,
`https?://(?:[\w-]+\.)+[\w-]+(?:/[\w\-./?%&=]*)?`: the literal scheme
`http` with an optional `s` and `://`, one or more host labels of
`[\w-]+` each ending in a dot, a final label of `[\w-]+`, and an optional
path `/[\w\-./?%&=]*`. -/
def url_regex : RE :=
  .cat (chr 'h') (.cat (chr 't') (.cat (chr 't') (.cat (chr 'p')
    (.cat (ropt (chr 's')) (.cat (chr ':') (.cat (chr '/') (.cat (chr '/')
      (.cat (rplus (.cat (rplus (.cls fun c => pyWord c || c == '-')) (chr '.')))
        (.cat (rplus (.cls fun c => pyWord c || c == '-'))
          (ropt (.cat (chr '/')
            (.star (.cls fun c => pyWord c || c == '-' || c == '.' || c == '/' ||
              c == '?' || c == '%' || c == '&' || c == '=')))))))))))))

/-- Three consecutive digits, `\d{3}`. -/
def dig3 : RE := .cat (.cls pyDigit) (.cat (.cls pyDigit) (.cls pyDigit))

/-- Four consecutive digits, `\d{4}`. -/
def dig4 : RE := .cat (.cls pyDigit) dig3

/-- Separator class `[-.\s]` of the phone pattern. -/
def phoneSep : RE := .cls fun c => c == '-' || c == '.' || pySpace c

/-- Body of the phone pattern of the source,
`(?:\(\d{3}\)|\d{3})[-.\s]?\d{3}[-.\s]?\d{4}`: a parenthesised or bare
three-digit area code, an optional separator, three digits, an optional
separator, four digits. -/
def phone_regex : RE :=
  .cat (.alt (.cat (chr '(') (.cat dig3 (chr ')'))) dig3)
    (.cat (ropt phoneSep) (.cat dig3 (.cat (ropt phoneSep) dig4)))

/-- Body of the credit-card pattern of the source, `(?:\d{4}[- ]?){3}\d{4}`:
three copies of (four digits then an optional `-` or space), then a final
four-digit group. -/
def credit_card_regex : RE :=
  .cat (.cat dig4 (ropt (.cls fun c => c == '-' || c == ' ')))
    (.cat (.cat dig4 (ropt (.cls fun c => c == '-' || c == ' ')))
      (.cat (.cat dig4 (ropt (.cls fun c => c == '-' || c == ' '))) dig4))

/-- Minutes `[0-5]\d` of the time pattern. -/
def minuteRE : RE := .cat (.cls fun c => '0' ≤ c && c ≤ '5') (.cls pyDigit)

/-- Body of the time pattern of the source,
`(([01]\d|2[0-3]):[0-5]\d)|((0?[1-9]|1[0-2]):[0-5]\d\s?(?:AM|PM))`,
compiled with `re.IGNORECASE` (which only affects the `AM`/`PM`
letters): a 24-hour branch `[01]\d|2[0-3]` hours with `[0-5]\d` minutes,
or a 12-hour branch `0?[1-9]|1[0-2]` hours, minutes, an optional single
whitespace and a case-insensitive meridiem. -/
def time_regex : RE :=
  .alt
    (.cat (.alt (.cat (.cls fun c => c == '0' || c == '1') (.cls pyDigit))
        (.cat (chr '2') (.cls fun c => '0' ≤ c && c ≤ '3')))
      (.cat (chr ':') minuteRE))
    (.cat (.alt (.cat (ropt (chr '0')) (.cls fun c => '1' ≤ c && c ≤ '9'))
        (.cat (chr '1') (.cls fun c => '0' ≤ c && c ≤ '2')))
      (.cat (chr ':')
        (.cat minuteRE
          (.cat (ropt (.cls pySpace))
            (.alt (.cat (ichr 'A') (ichr 'M')) (.cat (ichr 'P') (ichr 'M')))))))

/-- The five compiled validators, in the order of the source's `patterns`
mapping. -/
def validators : List RE :=
  [email_regex, url_regex, phone_regex, credit_card_regex, time_regex]

/-- Grammar of claim C2, read off the claim's words: one or more
alphanumerics, then zero or more groups of (one separator from
`.`, `_`, `+`, `-` followed by one or more alphanumerics), then `@`, then
one or more alphanumerics/hyphens, then one or more groups of (`.`
followed by two or more alphabetic characters). -/
def emailClaimGrammar : RE :=
  .cat (rplus (.cls asciiAlnum))
    (.cat (.star (.cat (.cls fun c => c == '.' || c == '_' || c == '+' || c == '-')
        (rplus (.cls asciiAlnum))))
      (.cat (chr '@')
        (.cat (rplus (.cls fun c => asciiAlnum c || c == '-'))
          (rplus (.cat (chr '.')
            (.cat (.cls asciiAlpha) (rplus (.cls asciiAlpha))))))))

/-- Sample table `test_strings` of the source: category name to its list
of sample strings, in source order. -/
def test_strings : List (String × List String) :=
  [("emails",
    ["user@example.com",
     "firstname.lastname@company.co.uk",
     "invalid_email@.com"]),
   ("urls",
    ["https://www.example.com",
     "http://subdomain.example.org/page",
     "ftp://not-valid.com"]),
   ("phone_numbers",
    ["(123) 456-7890",
     "123-456-7890",
     "123.456.7890",
     "1234567890"]),
   ("credit_cards",
    ["1234 5678 9012 3456",
     "1234-5678-9012-3456",
     "1234567890123456"]),
   ("times",
    ["14:30",
     "2:30 PM",
     "25:00",
     "02:60 AM"])]

/-- Category-to-pattern mapping built inside `run_tests` of the source. -/
def patterns : List (String × RE) :=
  [("emails", email_regex),
   ("urls", url_regex),
   ("phone_numbers", phone_regex),
   ("credit_cards", credit_card_regex),
   ("times", time_regex)]

theorem RE.not_matches_emp {s : List Char} : ¬ RE.Matches .emp s := by
  intro h; cases h

theorem RE.matches_eps_iff {s : List Char} : RE.Matches .eps s ↔ s = [] := by
  constructor
  · intro h; cases h; rfl
  · rintro rfl; exact .eps

theorem RE.matches_cls_iff {p : Char → Bool} {s : List Char} :
    RE.Matches (.cls p) s ↔ ∃ c, s = [c] ∧ p c = true := by
  constructor
  · intro h; cases h with
    | cls hp => exact ⟨_, rfl, hp⟩
  · rintro ⟨c, rfl, hp⟩; exact .cls hp

theorem RE.matches_alt_iff {a b : RE} {s : List Char} :
    RE.Matches (.alt a b) s ↔ RE.Matches a s ∨ RE.Matches b s := by
  constructor
  · intro h; cases h with
    | altL h => exact Or.inl h
    | altR h => exact Or.inr h
  · rintro (h | h)
    · exact .altL h
    · exact .altR h

theorem RE.matches_cat_iff {a b : RE} {s : List Char} :
    RE.Matches (.cat a b) s ↔
      ∃ u v, s = u ++ v ∧ RE.Matches a u ∧ RE.Matches b v := by
  constructor
  · intro h; cases h with
    | cat ha hb => exact ⟨_, _, rfl, ha, hb⟩
  · rintro ⟨u, v, rfl, ha, hb⟩; exact .cat ha hb

theorem RE.isEmp_eq {r : RE} (h : r.isEmp = true) : r = .emp := by
  cases r <;> simp [RE.isEmp] at h ⊢

theorem RE.isEps_eq {r : RE} (h : r.isEps = true) : r = .eps := by
  cases r <;> simp [RE.isEps] at h ⊢

theorem RE.matches_mkAlt_iff {a b : RE} {s : List Char} :
    RE.Matches (.mkAlt a b) s ↔ RE.Matches a s ∨ RE.Matches b s := by
  unfold RE.mkAlt
  split
  · next h =>
    rw [RE.isEmp_eq h]
    simp [RE.matches_alt_iff, (RE.not_matches_emp (s := s))]
  · split
    · next h =>
      rw [RE.isEmp_eq h]
      simp [RE.matches_alt_iff, (RE.not_matches_emp (s := s))]
    · exact RE.matches_alt_iff

theorem RE.matches_mkCat_iff {a b : RE} {s : List Char} :
    RE.Matches (.mkCat a b) s ↔
      ∃ u v, s = u ++ v ∧ RE.Matches a u ∧ RE.Matches b v := by
  unfold RE.mkCat
  split
  · next h =>
    rcases Bool.or_eq_true_iff.mp h with h | h
    · rw [RE.isEmp_eq h]
      constructor
      · intro hm; exact absurd hm RE.not_matches_emp
      · rintro ⟨u, v, rfl, ha, hb⟩; exact absurd ha RE.not_matches_emp
    · rw [RE.isEmp_eq h]
      constructor
      · intro hm; exact absurd hm RE.not_matches_emp
      · rintro ⟨u, v, rfl, ha, hb⟩; exact absurd hb RE.not_matches_emp
  · split
    · next h =>
      rw [RE.isEps_eq h]
      constructor
      · intro hm; exact ⟨[], s, rfl, .eps, hm⟩
      · rintro ⟨u, v, rfl, ha, hb⟩
        rw [RE.matches_eps_iff.mp ha]; exact hb
    · split
      · next h =>
        rw [RE.isEps_eq h]
        constructor
        · intro hm; exact ⟨s, [], by simp, hm, .eps⟩
        · rintro ⟨u, v, rfl, ha, hb⟩
          rw [RE.matches_eps_iff.mp hb]; simpa using ha
      · exact RE.matches_cat_iff

theorem RE.nullable_iff {r : RE} : r.nullable = true ↔ RE.Matches r [] := by
  induction r with
  | emp => simp [RE.nullable, (RE.not_matches_emp (s := ([] : List Char)))]
  | eps => simp [RE.nullable, RE.matches_eps_iff]
  | cls p => simp [RE.nullable, RE.matches_cls_iff]
  | alt a b iha ihb =>
    simp [RE.nullable, RE.matches_alt_iff, iha, ihb]
  | cat a b iha ihb =>
    simp only [RE.nullable, Bool.and_eq_true, RE.matches_cat_iff, iha, ihb]
    constructor
    · rintro ⟨ha, hb⟩; exact ⟨[], [], rfl, ha, hb⟩
    · rintro ⟨u, v, huv, ha, hb⟩
      rcases List.append_eq_nil.mp huv.symm with ⟨rfl, rfl⟩
      exact ⟨ha, hb⟩
  | star r ih => simp [RE.nullable]; exact .starNil

theorem RE.star_cons_inv {r : RE} {c : Char} {s : List Char}
    (h : RE.Matches (.star r) (c :: s)) :
    ∃ t u, s = t ++ u ∧ RE.Matches r (c :: t) ∧ RE.Matches (.star r) u := by
  generalize hx : c :: s = x at h
  generalize hr : RE.star r = r' at h
  induction h with
  | eps => exact absurd hr (by intro h; cases h)
  | cls _ => exact absurd hr (by intro h; cases h)
  | altL _ _ => exact absurd hr (by intro h; cases h)
  | altR _ _ => exact absurd hr (by intro h; cases h)
  | cat _ _ _ _ => exact absurd hr (by intro h; cases h)
  | starNil => exact absurd hx (by simp)
  | starCat hu hv ihu ihv =>
    cases hr
    rename_i u v
    cases u with
    | nil => exact ihv hx rfl
    | cons a t =>
      rcases List.cons.injEq .. ▸ hx with ⟨rfl, rfl⟩
      exact ⟨t, v, by simp_all, hu, hv⟩

theorem RE.deriv_iff {r : RE} {c : Char} :
    ∀ {s : List Char}, RE.Matches (r.deriv c) s ↔ RE.Matches r (c :: s) := by
  induction r with
  | emp =>
    intro s
    simp [RE.deriv, (RE.not_matches_emp (s := s)),
      (RE.not_matches_emp (s := c :: s))]
  | eps =>
    intro s
    simp [RE.deriv, (RE.not_matches_emp (s := s)), RE.matches_eps_iff]
  | cls p =>
    intro s
    constructor
    · intro h
      by_cases hp : p c = true
      · have he : RE.deriv (.cls p) c = .eps := by simp [RE.deriv, hp]
        rw [he, RE.matches_eps_iff] at h
        subst h
        exact .cls hp
      · have he : RE.deriv (.cls p) c = .emp := by simp [RE.deriv, hp]
        rw [he] at h
        exact absurd h RE.not_matches_emp
    · intro h
      rcases RE.matches_cls_iff.mp h with ⟨d, hd, hpd⟩
      injection hd with h1 h2
      subst h1
      subst h2
      have he : RE.deriv (.cls p) c = .eps := by simp [RE.deriv, hpd]
      rw [he]
      exact .eps
  | alt a b iha ihb =>
    intro s
    simp [RE.deriv, RE.matches_mkAlt_iff, RE.matches_alt_iff, iha, ihb]
  | cat a b iha ihb =>
    intro s
    by_cases hn : a.nullable = true
    · have hd : RE.deriv (.cat a b) c =
          RE.mkAlt (RE.mkCat (a.deriv c) b) (b.deriv c) := by
        simp [RE.deriv, hn]
      rw [hd]
      simp only [RE.matches_mkAlt_iff, RE.matches_mkCat_iff,
        RE.matches_cat_iff]
      constructor
      · rintro (⟨u, v, rfl, hu, hv⟩ | hb)
        · exact ⟨c :: u, v, rfl, iha.mp hu, hv⟩
        · exact ⟨[], c :: s, rfl, RE.nullable_iff.mp hn, ihb.mp hb⟩
      · rintro ⟨u, v, huv, hu, hv⟩
        cases u with
        | nil =>
          right
          simp only [List.nil_append] at huv
          exact ihb.mpr (huv ▸ hv)
        | cons a' u' =>
          left
          rcases List.cons.injEq .. ▸ huv with ⟨rfl, rfl⟩
          exact ⟨u', v, rfl, iha.mpr hu, hv⟩
    · have hd : RE.deriv (.cat a b) c = RE.mkCat (a.deriv c) b := by
        simp [RE.deriv, hn]
      rw [hd]
      simp only [RE.matches_mkCat_iff, RE.matches_cat_iff]
      constructor
      · rintro ⟨u, v, rfl, hu, hv⟩
        exact ⟨c :: u, v, rfl, iha.mp hu, hv⟩
      · rintro ⟨u, v, huv, hu, hv⟩
        cases u with
        | nil =>
          exact absurd (RE.nullable_iff.mpr hu) hn
        | cons a' u' =>
          rcases List.cons.injEq .. ▸ huv with ⟨rfl, rfl⟩
          exact ⟨u', v, rfl, iha.mpr hu, hv⟩
  | star r ih =>
    intro s
    simp only [RE.deriv, RE.matches_mkCat_iff]
    constructor
    · rintro ⟨u, v, rfl, hu, hv⟩
      exact (List.cons_append .. ▸ RE.Matches.starCat (ih.mp hu) hv)
    · intro hm
      rcases RE.star_cons_inv hm with ⟨t, u, rfl, ht, hu⟩
      exact ⟨t, u, rfl, ih.mpr ht, hu⟩

theorem RE.rmatch_iff {r : RE} {s : List Char} :
    r.rmatch s = true ↔ RE.Matches r s := by
  induction s generalizing r with
  | nil => exact RE.nullable_iff
  | cons c t ih => exact (ih.trans RE.deriv_iff)

theorem RE.not_mem_of_avoids {x : Char} {r : RE} {s : List Char}
    (h : RE.Matches r s) (hav : RE.avoids x r = true) : x ∉ s := by
  induction h with
  | eps => simp
  | cls hp =>
    rename_i p c
    simp only [RE.avoids, Bool.not_eq_true'] at hav
    intro hx
    rw [List.mem_singleton.mp hx] at hav
    rw [hav] at hp
    cases hp
  | altL _ ih =>
    rw [RE.avoids, Bool.and_eq_true] at hav
    exact ih hav.1
  | altR _ ih =>
    rw [RE.avoids, Bool.and_eq_true] at hav
    exact ih hav.2
  | cat _ _ ihu ihv =>
    rw [RE.avoids, Bool.and_eq_true] at hav
    intro hx
    rcases List.mem_append.mp hx with hx | hx
    · exact ihu hav.1 hx
    · exact ihv hav.2 hx
  | starNil => simp
  | starCat _ _ ihu ihv =>
    rw [RE.avoids] at hav
    intro hx
    rcases List.mem_append.mp hx with hx | hx
    · exact ihu hav hx
    · exact ihv (by rw [RE.avoids]; exact hav) hx

theorem pyFullMatch_iff {r : RE} {s : List Char} :
    pyFullMatch r s = true ↔
      RE.Matches r s ∨ ∃ t, s = t ++ ['\n'] ∧ RE.Matches r t := by
  rcases List.eq_nil_or_concat s with rfl | ⟨t, c, rfl⟩
  · have h1 : pyFullMatch r [] = r.rmatch [] := by
      simp [pyFullMatch]
    rw [h1, RE.rmatch_iff]
    constructor
    · exact Or.inl
    · rintro (h | ⟨t, ht, -⟩)
      · exact h
      · exact absurd ht (by simp)
  · simp only [List.concat_eq_append, pyFullMatch, List.getLast?_concat,
      List.dropLast_concat, Bool.or_eq_true, Bool.and_eq_true,
      RE.rmatch_iff, beq_iff_eq, Option.some.injEq]
    by_cases hc : c = '\n'
    · subst hc
      constructor
      · rintro (h | ⟨-, h⟩)
        · exact Or.inl h
        · exact Or.inr ⟨t, rfl, h⟩
      · rintro (h | ⟨u, hu, h⟩)
        · exact Or.inl h
        · right
          refine ⟨rfl, ?_⟩
          have := congrArg List.dropLast hu
          simp only [List.dropLast_concat] at this
          rw [this]
          exact h
    · constructor
      · rintro (h | ⟨h, -⟩)
        · exact Or.inl h
        · exact absurd h hc
      · rintro (h | ⟨u, hu, h⟩)
        · exact Or.inl h
        · exfalso
          have := congrArg List.getLast? hu
          simp only [List.getLast?_concat, Option.some.injEq] at this
          exact hc this

theorem matches_chr_iff {c : Char} {s : List Char} :
    RE.Matches (chr c) s ↔ s = [c] := by
  rw [chr, RE.matches_cls_iff]
  constructor
  · rintro ⟨d, rfl, hd⟩
    rw [beq_iff_eq.mp hd]
  · rintro rfl
    exact ⟨c, rfl, beq_self_eq_true c⟩

theorem matches_ropt_iff {r : RE} {s : List Char} :
    RE.Matches (ropt r) s ↔ RE.Matches r s ∨ s = [] := by
  rw [ropt, RE.matches_alt_iff, RE.matches_eps_iff]

theorem matches_chr_cat {c : Char} {r : RE} {s : List Char} :
    RE.Matches (.cat (chr c) r) s ↔ ∃ t, s = c :: t ∧ RE.Matches r t := by
  rw [RE.matches_cat_iff]
  constructor
  · rintro ⟨u, v, rfl, hu, hv⟩
    rw [matches_chr_iff] at hu
    subst hu
    exact ⟨v, rfl, hv⟩
  · rintro ⟨t, rfl, ht⟩
    exact ⟨[c], t, rfl, matches_chr_iff.mpr rfl, ht⟩

theorem not_matches_of_rmatch_false {r : RE} {s : List Char}
    (h : r.rmatch s = false) : ¬ RE.Matches r s := by
  intro hm
  rw [RE.rmatch_iff.mpr hm] at h
  exact Bool.noConfusion h

theorem pyFullMatch_reject_of_avoids {x : Char} {r : RE} {s : List Char}
    (hav : RE.avoids x r = true) (hx : x ∈ s) (hn : x ≠ '\n') :
    pyFullMatch r s = false := by
  cases h : pyFullMatch r s
  · rfl
  · exfalso
    rcases pyFullMatch_iff.mp h with hm | ⟨t, rfl, hm⟩
    · exact RE.not_mem_of_avoids hm hav hx
    · have hxt : x ∈ t := by
        rcases List.mem_append.mp hx with h1 | h1
        · exact h1
        · exact absurd (List.mem_singleton.mp h1) hn
      exact RE.not_mem_of_avoids hm hav hxt

theorem url_scheme_head {s : List Char} (h : RE.Matches url_regex s) :
    ∃ tail, s = 'h' :: 't' :: 't' :: 'p' :: ':' :: '/' :: '/' :: tail ∨
      s = 'h' :: 't' :: 't' :: 'p' :: 's' :: ':' :: '/' :: '/' :: tail := by
  simp only [url_regex] at h
  rw [matches_chr_cat] at h
  obtain ⟨s1, rfl, h⟩ := h
  rw [matches_chr_cat] at h
  obtain ⟨s2, rfl, h⟩ := h
  rw [matches_chr_cat] at h
  obtain ⟨s3, rfl, h⟩ := h
  rw [matches_chr_cat] at h
  obtain ⟨s4, rfl, h⟩ := h
  rw [RE.matches_cat_iff] at h
  obtain ⟨u, v, rfl, hu, hv⟩ := h
  rw [matches_ropt_iff, matches_chr_iff] at hu
  rw [matches_chr_cat] at hv
  obtain ⟨t1, rfl, hv⟩ := hv
  rw [matches_chr_cat] at hv
  obtain ⟨t2, rfl, hv⟩ := hv
  rw [matches_chr_cat] at hv
  obtain ⟨t3, rfl, -⟩ := hv
  rcases hu with rfl | rfl
  · exact ⟨t3, Or.inr rfl⟩
  · exact ⟨t3, Or.inl rfl⟩

/-- C1 (counterexample): the claim says that prepending any single
character to an accepted string yields a rejected string, and the spec
gives `xuser@example.com` and `user@example.comx` as rejecting examples;
in fact the email validator accepts `user@example.com` and also accepts
both one-character extensions, since `xuser` is a valid local part and
`.comx` a valid alphabetic suffix. -/
theorem c1_insertion_cex :
    pyFullMatch email_regex ("user@example.com").toList = true ∧
    pyFullMatch email_regex ("xuser@example.com").toList = true ∧
    pyFullMatch email_regex ("user@example.comx").toList = true := by
  refine ⟨by decide, by decide, by decide⟩

/-- C1 (amended): matching is anchored at both ends, but a one-character
extension is rejected only when the extended string falls outside the
pattern's language.  For a character that no accepted string of any of
the five validators may contain — such as `'!'`, which lies in none of
the patterns' character classes — prepending it or appending it to any
accepted string always yields a rejected string. -/
theorem c1_anchoring_bang_reject :
    ∀ r ∈ validators, ∀ s : List Char, pyFullMatch r s = true →
      pyFullMatch r ('!' :: s) = false ∧
      pyFullMatch r (s ++ ['!']) = false := by
  intro r hr s _
  have hall : validators.all (RE.avoids '!') = true := by decide
  have hav : RE.avoids '!' r = true := List.all_eq_true.mp hall r hr
  constructor
  · exact pyFullMatch_reject_of_avoids hav (List.mem_cons_self _ _) (by decide)
  · exact pyFullMatch_reject_of_avoids hav
      (List.mem_append.mpr (Or.inr (List.mem_singleton.mpr rfl))) (by decide)

/-- C1 (witness): the amended theorem applied to the email validator and
the accepted string `user@example.com`. -/
theorem c1_anchoring_bang_reject_witness :
    pyFullMatch email_regex ('!' :: ("user@example.com").toList) = false ∧
    pyFullMatch email_regex (("user@example.com").toList ++ ['!']) = false :=
  c1_anchoring_bang_reject email_regex (List.Mem.head _) _ (by decide)

/-- C2 (counterexample): the claim says the email validator accepts
exactly the strings of the stated grammar, but `user@example.com\n`
(with a trailing newline) is accepted — Python's `$` matches just before
a final newline — while it is not a word of the stated grammar. -/
theorem c2_email_newline_cex :
    pyFullMatch email_regex ("user@example.com\n").toList = true ∧
    ¬ RE.Matches emailClaimGrammar ("user@example.com\n").toList := by
  exact ⟨by decide, not_matches_of_rmatch_false (by decide)⟩

/-- C2 (amended): the email validator accepts exactly the words of the
claim's grammar together with each such word followed by one trailing
newline; the claim's three sample verdicts hold as stated. -/
theorem c2_email_grammar :
    (∀ s : List Char, pyFullMatch email_regex s = true ↔
      (RE.Matches emailClaimGrammar s ∨
        ∃ t, s = t ++ ['\n'] ∧ RE.Matches emailClaimGrammar t)) ∧
    pyFullMatch email_regex ("user@example.com").toList = true ∧
    pyFullMatch email_regex ("firstname.lastname@company.co.uk").toList = true ∧
    pyFullMatch email_regex ("invalid_email@.com").toList = false := by
  refine ⟨fun s => ?_, by decide, by decide, by decide⟩
  exact pyFullMatch_iff

/-- C3: a string is accepted by the URL validator only if it begins with
the literal prefix `http://` or `https://` (so any other scheme prefix is
rejected); the claim's three sample verdicts hold, in particular
`ftp://not-valid.com` is rejected. -/
theorem c3_url_scheme :
    (∀ s : List Char, pyFullMatch url_regex s = true →
      ∃ tail, s = 'h' :: 't' :: 't' :: 'p' :: ':' :: '/' :: '/' :: tail ∨
        s = 'h' :: 't' :: 't' :: 'p' :: 's' :: ':' :: '/' :: '/' :: tail) ∧
    pyFullMatch url_regex ("https://www.example.com").toList = true ∧
    pyFullMatch url_regex ("http://subdomain.example.org/page").toList = true ∧
    pyFullMatch url_regex ("ftp://not-valid.com").toList = false := by
  refine ⟨fun s h => ?_, by decide, by decide, by decide⟩
  rcases pyFullMatch_iff.mp h with hm | ⟨t, rfl, hm⟩
  · exact url_scheme_head hm
  · rcases url_scheme_head hm with ⟨tail, rfl | rfl⟩
    · exact ⟨tail ++ ['\n'], Or.inl (by simp)⟩
    · exact ⟨tail ++ ['\n'], Or.inr (by simp)⟩

/-- C3 (witness): the scheme-prefix property applied to the accepted
string `https://www.example.com`. -/
theorem c3_url_scheme_witness :
    ∃ tail, ("https://www.example.com").toList =
        'h' :: 't' :: 't' :: 'p' :: ':' :: '/' :: '/' :: tail ∨
      ("https://www.example.com").toList =
        'h' :: 't' :: 't' :: 'p' :: 's' :: ':' :: '/' :: '/' :: tail :=
  c3_url_scheme.1 _ (by decide)

/-- C7 (counterexample): the claim says a string with a non-ASCII letter
in a word-class position is rejected, but the URL validator accepts
`https://exämple.com`: the source compiles its patterns over `str`
without `re.ASCII`, so `\w` is Unicode-aware and matches `ä`. -/
theorem c7_unicode_word_cex :
    pyFullMatch url_regex ("https://exämple.com").toList = true := by
  decide

/-- C7 (amended): the word-character classes follow Python's default
Unicode semantics, so a non-ASCII letter such as `ä` is matched by `\w`
and `https://exämple.com` is accepted; characters outside the word
classes, such as `!`, are still rejected in those positions. -/
theorem c7_word_class_unicode :
    pyWord 'ä' = true ∧
    pyFullMatch url_regex ("https://exämple.com").toList = true ∧
    pyWord '!' = false ∧
    pyFullMatch url_regex ("https://ex!mple.com").toList = false := by
  refine ⟨by decide, by decide, by decide, by decide⟩

/-- C8: each of the five validators is a pure total function of its
input string: for every input there is exactly one boolean it returns,
so repeated invocations agree and never fail (in the embedding this is
totality plus determinism of `pyFullMatch`). -/
theorem c8_validators_total :
    ∀ r ∈ validators, ∀ s : List Char, ∃! b : Bool, pyFullMatch r s = b :=
  fun r _ s => ⟨pyFullMatch r s, rfl, fun _ hy => hy.symm⟩

/-- C8 (witness): the email validator on `user@example.com` returns a
unique boolean. -/
theorem c8_validators_total_witness :
    ∃! b : Bool, pyFullMatch email_regex ("user@example.com").toList = b :=
  c8_validators_total email_regex (List.Mem.head _) _

/-- C9: the key list of the sample table and the key list of the
category-to-pattern mapping of `run_tests` are equal (even in order),
have no duplicates, and every pattern category looks up successfully in
the sample table, so the harness never looks up a missing category. -/
theorem c9_categories_in_lockstep :
    patterns.map Prod.fst = test_strings.map Prod.fst ∧
    (patterns.map Prod.fst).Nodup ∧
    (patterns.map Prod.fst).all
      (fun k => (test_strings.lookup k).isSome) = true := by
  refine ⟨rfl, by decide, by decide⟩

/-- C10 (counterexample): the claim says appending one newline to any
accepted string yields an accepted string, but `2:30 PM\n` is accepted
while `2:30 PM\n\n` is rejected: `$` tolerates only a single trailing
newline. -/
theorem c10_double_newline_cex :
    pyFullMatch time_regex ("2:30 PM\n").toList = true ∧
    pyFullMatch time_regex (("2:30 PM\n").toList ++ ['\n']) = false := by
  exact ⟨by decide, by decide⟩

/-- C10 (amended): for every validator and every accepted string that
does not already end in a newline, appending a single newline yields an
accepted string (the end anchor matches immediately before a final
newline). -/
theorem c10_trailing_newline :
    ∀ r ∈ validators, ∀ s : List Char, pyFullMatch r s = true →
      s.getLast? ≠ some '\n' → pyFullMatch r (s ++ ['\n']) = true := by
  intro r _ s h hlast
  rcases pyFullMatch_iff.mp h with hm | ⟨t, rfl, hm⟩
  · exact pyFullMatch_iff.mpr (Or.inr ⟨s, rfl, hm⟩)
  · exfalso
    exact hlast (List.getLast?_concat t)

/-- C10 (witness): the amended theorem applied to the email validator
and the accepted string `user@example.com`. -/
theorem c10_trailing_newline_witness :
    pyFullMatch email_regex (("user@example.com").toList ++ ['\n']) = true :=
  c10_trailing_newline email_regex (List.Mem.head _) _ (by decide) (by decide)
